import Mathlib

/-!
Verification development for the cargo-nuget dependency-acquisition pipeline
(`src/main.rs`).  The Rust program is shallowly embedded: network responses,
zip-archive entries and the filesystem are explicit data, and every effectful
Rust function becomes a pure state-passing Lean function.  Unwrap-panics are
modelled by a dedicated `panicked` outcome.
-/

namespace CargoNuget

/-! ### Error type (main.rs lines 30-40)

The Rust `enum Error` carries boxed dynamic causes; here a cause is the
rendered message string. -/

inductive Error where
  | NoCargoToml
  | DownloadError (cause : String)
  | MalformedManifest
  | Other (cause : String)
deriving DecidableEq, Repr

/-- Result of running a fallible Rust computation: a value, a returned
`Err`, or a panic from an unguarded `unwrap`. -/
inductive Outcome (α : Type) where
  | ok (a : α)
  | err (e : Error)
  | panicked
deriving DecidableEq, Repr

/-! ### Manifest model (cargo_toml::Manifest, as consumed by `get_deps`)

`get_deps` only inspects `manifest.package.metadata` as a toml value.  Toml
values other than strings and tables (integers, arrays, ...) all fall into
the catch-all arms of the Rust code, so they are collapsed into `other`. -/

inductive TomlValue where
  | str (s : String)
  | table (entries : List (String × TomlValue))
  | other

structure Package where
  metadata : Option TomlValue

structure Manifest where
  package : Option Package

/-- Value returned by `Table::remove(key)` in `get_deps`; the mutated table
is never used afterwards, so only the looked-up value is modelled.  A toml
table has unique keys, so first-match lookup is exact. -/
def tableLookup (key : String) (t : List (String × TomlValue)) : Option TomlValue :=
  (t.find? (fun e => decide (e.1 = key))).map (fun e => e.2)

/-! ### Dependency (main.rs lines 87-103) -/

structure Dependency where
  name : String
  version : String
deriving DecidableEq, Repr

def Dependency.new (name : String) (version : String) : Dependency :=
  { name := name, version := version }

/-- Embedding of `Dependency::url` (main.rs lines 98-103). -/
def Dependency.url (d : Dependency) : String :=
  "https://www.nuget.org/api/v2/package/" ++ d.name ++ "/" ++ d.version

/-! ### get_deps (main.rs lines 68-85) -/

/-- Embedding of the closure mapped over the dependency table followed by
`collect::<Result<Vec<_>, _>>()`: the first non-string value aborts with
`MalformedManifest` and no partial list is produced. -/
def depsFromTable : List (String × TomlValue) → Except Error (List Dependency)
  | [] => .ok []
  | (key, value) :: rest =>
    match value with
    | .str version =>
      match depsFromTable rest with
      | .ok ds => .ok (Dependency.new key version :: ds)
      | .error e => .error e
    | _ => .error .MalformedManifest

/-- Embedding of `get_deps` (main.rs lines 68-85). -/
def get_deps (manifest : Manifest) : Except Error (List Dependency) :=
  match manifest.package.bind Package.metadata with
  | some (.table t) =>
    match tableLookup "nuget_dependencies" t with
    | some (.table deps) => depsFromTable deps
    | _ => .error .MalformedManifest
  | _ => .error .MalformedManifest

/-! ### HTTP model (main.rs lines 105-146)

A network is a function from URL to either a transport error (the
`reqwest::get` error, rendered) or a response.  A `Location` header value is
either convertible by `to_str` (visible ASCII) or not. -/

inductive HeaderVal where
  | valid (value : String)
  | invalid
deriving DecidableEq, Repr

structure Response where
  status : Nat
  location : Option HeaderVal
  body : Except String (List Nat)
deriving Repr

/-- Rendering of `http::StatusCode` by `Display` (numeric code followed by
the canonical reason phrase), for the codes exercised in this development. -/
def statusDisplay (code : Nat) : String :=
  let reason :=
    if code = 200 then "OK"
    else if code = 302 then "Found"
    else if code = 404 then "Not Found"
    else if code = 500 then "Internal Server Error"
    else "<unknown status code>"
  toString code ++ " " ++ reason

/-- Embedding of the inner `try_download` of `Dependency::download`
(main.rs lines 106-143).  The budget is checked against 0 before each
request; on a 302 the `Location` header lookup and its `to_str` conversion
are unwrapped, so a missing or non-ASCII header panics. -/
def tryDownload (net : String → Except String Response) : Nat → String → Outcome (List Nat)
  | 0, _ => .err (.DownloadError "Too many redirects")
  | n + 1, url =>
    match net url with
    | .error e => .err (.DownloadError e)
    | .ok res =>
      if res.status = 200 then
        match res.body with
        | .error e => .err (.DownloadError e)
        | .ok bytes => .ok bytes
      else if res.status = 302 then
        match res.location with
        | none => .panicked
        | some .invalid => .panicked
        | some (.valid u) => tryDownload net n u
      else
        .err (.DownloadError ("Non-successful response: " ++ statusDisplay res.status))

/-- Embedding of `Dependency::download` (main.rs line 145):
`try_download(self.url(), 5)`. -/
def Dependency.download (d : Dependency) (net : String → Except String Response) :
    Outcome (List Nat) :=
  tryDownload net 5 d.url

/-! ### Downloaded payloads and batch download (main.rs lines 149-152, 183-195) -/

structure DownloadedDependency where
  dependency : Dependency
  bytes : List Nat
deriving DecidableEq, Repr

/-- Embedding of `download_dependencies` (main.rs lines 183-195).
`try_join_all` yields all payloads or the first failure; the concurrent
join is deterministically modelled by list order, which only fixes which of
several simultaneous failures is reported. -/
def download_dependencies (net : String → Except String Response) :
    List Dependency → Outcome (List DownloadedDependency)
  | [] => .ok []
  | d :: rest =>
    match d.download net with
    | .panicked => .panicked
    | .err e => .err e
    | .ok bytes =>
      match download_dependencies net rest with
      | .ok ds => .ok ({ dependency := d, bytes := bytes } :: ds)
      | .err e => .err e
      | .panicked => .panicked

/-! ### Zip archive model (main.rs lines 154-181)

A zip entry is modelled by its `sanitized_name` — which the zip crate
produces by splitting the raw entry name on both separators, so each
component is non-empty and separator-free — together with the result of
`read_to_end` on the entry (`Except`: a failed read carries the rendered
io error).  Opening the archive container (`ZipArchive::new`) is modelled
by a parse function from the payload bytes; its error is the rendered zip
error. -/

structure ZipEntry where
  components : List String
  content : Except String (List Nat)

/-- Rendering of `Path::to_str` on the target platform: components joined
by the backslash separator, matching the literal the source compares
against. -/
def renderPath : List String → String
  | [] => ""
  | [c] => c
  | c :: rest => c ++ "\\" ++ renderPath rest

/-- Embedding of `path.parent().and_then(Path::to_str)`: `Path::parent` of
a non-empty relative path drops the last component (yielding the empty
path, rendered "", for a single component) and is `None` on the empty
path. -/
def pathParentStr (cs : List String) : Option String :=
  if cs.isEmpty then none else some (renderPath cs.dropLast)

/-- Position of the last dot in a file name: `some (stem, ext)` splits the
character list at the last '.', `none` when there is no dot. -/
def splitLastDot : List Char → Option (List Char × List Char)
  | [] => none
  | c :: rest =>
    match splitLastDot rest with
    | some (st, ex) => some (c :: st, ex)
    | none => if c = '.' then some ([], rest) else none

/-- Extension of a file name following `Path::extension`: the portion after
the last '.', unless there is no dot or the only relevant dot is leading
(a dot-file has no extension). -/
def extOf (name : String) : Option String :=
  match splitLastDot name.data with
  | some ([], _) => none
  | some (_, ex) => some (String.mk ex)
  | none => none

/-- Embedding of `path.extension()`: the extension of the final
component. -/
def pathExtension (cs : List String) : Option String :=
  cs.getLast?.bind extOf

/-- Embedding of the selection condition on main.rs lines 162-165: the
entry's extension is `winmd` and its rendered parent path equals the
literal the source compares with. -/
def entrySelected (cs : List String) : Bool :=
  match pathExtension cs with
  | some e => decide (e = "winmd") && decide (pathParentStr cs = some "lib\\uap10.0")
  | none => false

/-! ### Winmd (main.rs lines 197-206); `OsString` names are strings here -/

structure Winmd where
  name : String
  contents : List Nat
deriving DecidableEq, Repr

/-- Embedding of the entry loop of `DownloadedDependency::winmds`
(main.rs lines 159-178): selected entries whose content read fails are
skipped (with a logged warning) and iteration continues. -/
def collectWinmds : List ZipEntry → List Winmd
  | [] => []
  | e :: rest =>
    match e.components.getLast? with
    | some name =>
      if entrySelected e.components then
        match e.content with
        | .error _ => collectWinmds rest
        | .ok contents => { name := name, contents := contents } :: collectWinmds rest
      else collectWinmds rest
    | none => collectWinmds rest

/-- The warnings printed by `eprintln!` in the same loop, one per selected
entry whose content read fails. -/
def winmdWarnings : List ZipEntry → List String
  | [] => []
  | e :: rest =>
    match e.components.getLast? with
    | some _ =>
      if entrySelected e.components then
        match e.content with
        | .error msg => ("Could not read winmd file: " ++ msg) :: winmdWarnings rest
        | .ok _ => winmdWarnings rest
      else winmdWarnings rest
    | none => winmdWarnings rest

/-- Embedding of `DownloadedDependency::winmds` (main.rs lines 155-180): a
container-open failure is the hard error `Error::Other`; otherwise the
entry loop always returns `Ok`. -/
def DownloadedDependency.winmds (d : DownloadedDependency)
    (zipParse : List Nat → Except String (List ZipEntry)) : Except Error (List Winmd) :=
  match zipParse d.bytes with
  | .error e => .error (.Other e)
  | .ok entries => .ok (collectWinmds entries)

/-! ### Filesystem model (std::fs as used on main.rs lines 47, 53-61, 202-206)

The filesystem is the set of existing directories plus a file store; a
fresh write shadows any earlier entry for the same path, which models the
overwriting `std::fs::write`.  Which writes fail with an io error is a
parameter (`writeFails`). -/

structure FS where
  dirs : List (List String)
  files : List (List String × List Nat)
deriving DecidableEq, Repr

def FS.readFile (fs : FS) (p : List String) : Option (List Nat) :=
  (fs.files.find? (fun e => decide (e.1 = p))).map (fun e => e.2)

/-- Embedding of `std::fs::write` (main.rs line 204): creates or
overwrites the file at `p`. -/
def FS.writeFile (fs : FS) (p : List String) (c : List Nat) : FS :=
  { fs with files := (p, c) :: fs.files }

def insertDir (ds : List (List String)) (d : List String) : List (List String) :=
  if d ∈ ds then ds else d :: ds

/-- All non-empty ancestor paths of a directory path, shortest first. -/
def dirPrefixes (d : List String) : List (List String) :=
  (List.range d.length).map (fun k => d.take (k + 1))

/-- Embedding of `std::fs::create_dir_all` (main.rs line 58): ensures the
directory and all its ancestors exist; a no-op for directories that already
exist.  Its io failure modes are outside the claims and not modelled. -/
def FS.mkdirAll (fs : FS) (d : List String) : FS :=
  { fs with dirs := (dirPrefixes d).foldl insertDir fs.dirs }

/-- Embedding of `Winmd::write` (main.rs lines 202-206):
`fs::write(dir.join(&self.name), &self.contents)`; returns the new
filesystem, or `none` for an io error (decided by `writeFails`). -/
def Winmd.write (w : Winmd) (dir : List String) (writeFails : List String → Bool)
    (fs : FS) : Option FS :=
  if writeFails (dir ++ [w.name]) then none else some (fs.writeFile (dir ++ [w.name]) w.contents)

/-- Embedding of the inner write loop of `Install::perform` (main.rs lines
59-61): each `winmd.write(..)` result is unwrapped, so the first failing
write panics, leaving earlier writes on disk. -/
def writeAllWinmds (writeFails : List String → Bool) (dir : List String) :
    List Winmd → FS → Outcome Unit × FS
  | [], fs => (.ok (), fs)
  | w :: rest, fs =>
    match w.write dir writeFails fs with
    | none => (.panicked, fs)
    | some fs1 => writeAllWinmds writeFails dir rest fs1

/-- The per-dependency directory `target/nuget/<name>` (main.rs lines
53-56). -/
def depDir (name : String) : List String :=
  ["target", "nuget", name]

/-- Embedding of the materialization loop of `Install::perform` (main.rs
lines 51-62): per downloaded dependency, extract the winmds (propagating
the extraction error), create the dependency directory, and write every
winmd. -/
def installDownloaded (zipParse : List Nat → Except String (List ZipEntry))
    (writeFails : List String → Bool) :
    List DownloadedDependency → FS → Outcome Unit × FS
  | [], fs => (.ok (), fs)
  | d :: rest, fs =>
    match d.winmds zipParse with
    | .error e => (.err e, fs)
    | .ok ws =>
      match writeAllWinmds writeFails (depDir d.dependency.name) ws
          (fs.mkdirAll (depDir d.dependency.name)) with
      | (.ok _, fs2) => installDownloaded zipParse writeFails rest fs2
      | r => r

/-- Embedding of `Install::perform` (main.rs lines 46-65).  Reading
`Cargo.toml` and parsing it are external collaborators, passed as the read
result and the parse function; any read error becomes `NoCargoToml` and
any parse error `MalformedManifest`. -/
def Install.perform (cargoToml : Option (List Nat)) (parse : List Nat → Option Manifest)
    (net : String → Except String Response)
    (zipParse : List Nat → Except String (List ZipEntry))
    (writeFails : List String → Bool) (fs : FS) : Outcome Unit × FS :=
  match cargoToml with
  | none => (.err .NoCargoToml, fs)
  | some bytes =>
    match parse bytes with
    | none => (.err .MalformedManifest, fs)
    | some manifest =>
      match get_deps manifest with
      | .error e => (.err e, fs)
      | .ok deps =>
        match download_dependencies net deps with
        | .panicked => (.panicked, fs)
        | .err e => (.err e, fs)
        | .ok downloaded => installDownloaded zipParse writeFails downloaded fs

/-! ### Derived forms used to state the spec claims -/

/-- Write loop without io failures, as a plain filesystem transformer. -/
def writeAll (dir : List String) : List Winmd → FS → FS
  | [], fs => fs
  | w :: rest, fs => writeAll dir rest (fs.writeFile (dir ++ [w.name]) w.contents)

/-- The materialize step for one dependency on a filesystem without write
errors: ensure the directory exists, then write every file by bare name. -/
def materializeDep (name : String) (ws : List Winmd) (fs : FS) : FS :=
  writeAll (depDir name) ws (fs.mkdirAll (depDir name))

/-- Content of the last write among `ws` (within directory `dir`) landing
on path `p`, if any. -/
def lastWrite (dir : List String) : List Winmd → List String → Option (List Nat)
  | [], _ => none
  | w :: rest, p =>
    match lastWrite dir rest p with
    | some c => some c
    | none => if dir ++ [w.name] = p then some w.contents else none

/-- The registry URL exactly as the spec words it: the fixed template
`https://<registry-host>/api/v2/package/<name>/<version>` with name and
version substituted verbatim. -/
def specRegistryUrl (host : String) (name : String) (version : String) : String :=
  "https://" ++ host ++ "/api/v2/package/" ++ name ++ "/" ++ version

/-! ### Concrete fixtures (mock registries, archives and manifests) -/

/-- A mock registry given by a routing table; unknown URLs are transport
errors. -/
def listNet (routes : List (String × Response)) : String → Except String Response :=
  fun url =>
    match routes.find? (fun r => decide (r.1 = url)) with
    | some r => .ok r.2
    | none => .error "no route"

def ok200 (body : List Nat) : Response :=
  { status := 200, location := none, body := .ok body }

def redirTo (u : String) : Response :=
  { status := 302, location := some (.valid u), body := .ok [] }

def depT : Dependency := { name := "T", version := "1.0" }

/-- Registry answering the resolved URL of `depT` with four consecutive
302s and then a 200 with payload `[7]`. -/
def netFourRedirects : String → Except String Response :=
  listNet [(depT.url, redirTo "r1"), ("r1", redirTo "r2"), ("r2", redirTo "r3"),
           ("r3", redirTo "r4"), ("r4", ok200 [7])]

/-- Registry answering the resolved URL of `depT` with five consecutive
302s and then a 200 with payload `[7]`. -/
def netFiveRedirects : String → Except String Response :=
  listNet [(depT.url, redirTo "r1"), ("r1", redirTo "r2"), ("r2", redirTo "r3"),
           ("r3", redirTo "r4"), ("r4", redirTo "r5"), ("r5", ok200 [7])]

/-- Registry answering every URL with a 302 (in particular six or more
consecutive 302s on any chain). -/
def netAllRedirects : String → Except String Response :=
  fun _ => .ok (redirTo "r")

/-- Registry answering the resolved URL of dependency `A`/`1.0` with a 200
and every other URL with a 500. -/
def netOnlyAOk : String → Except String Response :=
  fun url =>
    if url = (Dependency.new "A" "1.0").url then .ok (ok200 [1])
    else .ok { status := 500, location := none, body := .ok [] }

/-- Registry answering the resolved URL of `depT` with a 302 carrying no
`Location` header. -/
def netNoLocation : String → Except String Response :=
  listNet [(depT.url, { status := 302, location := none, body := .ok [] })]

/-- Registry answering the resolved URL of `depT` with a 302 whose
`Location` header is not visible ASCII. -/
def netBadLocation : String → Except String Response :=
  listNet [(depT.url, { status := 302, location := some .invalid, body := .ok [] })]

/-- The three-entry archive of the spec's extraction example. -/
def archive3 : List ZipEntry :=
  [ { components := ["lib", "uap10.0", "foo.winmd"], content := .ok [1, 2, 3] },
    { components := ["lib", "uap10.0", "bar.dll"], content := .ok [4] },
    { components := ["other", "foo.winmd"], content := .ok [5] } ]

def zipParse3 : List Nat → Except String (List ZipEntry) :=
  fun _ => .ok archive3

/-- Manifest whose package metadata holds exactly the `nuget_dependencies`
table mapping each pair's name to its version string. -/
def manifestOf (ds : List (String × String)) : Manifest :=
  { package := some { metadata := some (.table
      [("nuget_dependencies", .table (ds.map (fun p => (p.1, TomlValue.str p.2))))]) } }

/-- Parse function used by the end-to-end fixtures: any bytes parse to the
given manifest. -/
def parseTo (m : Manifest) : List Nat → Option Manifest :=
  fun _ => some m

/-- Registry for the write-failure scenario: dependency `P`/`1.0` downloads
with payload `[9]`. -/
def netP : String → Except String Response :=
  listNet [((Dependency.new "P" "1.0").url, ok200 [9])]

/-- Archive of the write-failure scenario: two selected winmd entries. -/
def zipParseP : List Nat → Except String (List ZipEntry) :=
  fun _ => .ok
    [ { components := ["lib", "uap10.0", "foo.winmd"], content := .ok [1] },
      { components := ["lib", "uap10.0", "bar.winmd"], content := .ok [2] } ]

/-- Write-failure pattern of the scenario: writing
`target/nuget/P/bar.winmd` fails, all other writes succeed. -/
def wfP : List String → Bool :=
  fun p => decide (p = ["target", "nuget", "P", "bar.winmd"])

def emptyFS : FS := { dirs := [], files := [] }

/-- A selected entry whose content read fails. -/
def badEntry : ZipEntry :=
  { components := ["lib", "uap10.0", "broken.winmd"], content := .error "eof" }

/-! ### Shared lemmas -/

theorem tryDownload_err_shape (net : String → Except String Response) :
    ∀ (n : Nat) (url : String) (e : Error),
      tryDownload net n url = .err e → ∃ c, e = .DownloadError c := by
  intro n
  induction n with
  | zero =>
    intro url e h
    simp only [tryDownload] at h
    injection h with h1
    exact ⟨"Too many redirects", h1.symm⟩
  | succ n ih =>
    intro url e h
    simp only [tryDownload] at h
    split at h
    · injection h with h1
      exact ⟨_, h1.symm⟩
    · split at h
      · split at h
        · injection h with h1
          exact ⟨_, h1.symm⟩
        · exact absurd h (by simp)
      · split at h
        · split at h
          · exact absurd h (by simp)
          · exact absurd h (by simp)
          · exact ih _ e h
        · injection h with h1
          exact ⟨_, h1.symm⟩

/-! ### Claim theorems -/

/-- C9: for every dependency record, the Registry URL Resolver is a pure,
total function returning the fixed template
`https://www.nuget.org/api/v2/package/{name}/{version}` with the record's
name and version substituted verbatim. -/
theorem c9_url (d : Dependency) :
    d.url = specRegistryUrl "www.nuget.org" d.name d.version := rfl

/-- C1 as stated is false on the code: with a registry answering the
dependency URL with five 302s (each carrying a `Location` header) and then
a 200 with payload `[7]`, the download does not succeed with the payload
but fails with "too many redirects", because the zero-budget check runs
before each request, so the sixth request is never issued. -/
theorem c1_counterexample :
    depT.download netFiveRedirects = .err (.DownloadError "Too many redirects")
    ∧ depT.download netFiveRedirects ≠ .ok [7] :=
  ⟨rfl, by decide⟩

/-- C1 (amended): the redirect budget is initialized to 5 and decremented
once per 302 followed; a call with budget 0 fails with "too many
redirects" without issuing a request.  Hence a chain of four 302s followed
by a 200 succeeds with the final payload, while five consecutive 302s —
in particular six — fail with "too many redirects". -/
theorem c1_redirect_budget :
    (∀ (d : Dependency) (net : String → Except String Response),
        d.download net = tryDownload net 5 d.url)
    ∧ (∀ (net : String → Except String Response) (n : Nat) (url u : String)
          (resp : Response), net url = .ok resp → resp.status = 302 →
          resp.location = some (.valid u) →
          tryDownload net (n + 1) url = tryDownload net n u)
    ∧ (∀ (net : String → Except String Response) (url : String),
          tryDownload net 0 url = .err (.DownloadError "Too many redirects"))
    ∧ depT.download netFourRedirects = .ok [7]
    ∧ depT.download netFiveRedirects = .err (.DownloadError "Too many redirects")
    ∧ (∀ (n : Nat) (url : String),
          tryDownload netAllRedirects n url
            = .err (.DownloadError "Too many redirects")) := by
  refine ⟨fun d net => rfl, ?_, fun net url => rfl, rfl, rfl, ?_⟩
  · intro net n url u resp h1 h2 h3
    simp [tryDownload, h1, h2, h3]
  · intro n
    induction n with
    | zero => intro url; rfl
    | succ n ih =>
      intro url
      simp [tryDownload, netAllRedirects, redirTo, ih]

theorem c1_redirect_budget_witness :
    tryDownload netAllRedirects 3 "u0" = tryDownload netAllRedirects 2 "r"
    ∧ depT.download netFourRedirects = .ok [7]
    ∧ depT.download netFiveRedirects = .err (.DownloadError "Too many redirects") :=
  ⟨c1_redirect_budget.2.1 netAllRedirects 2 "u0" "r" (redirTo "r") rfl rfl rfl,
   c1_redirect_budget.2.2.2.1, c1_redirect_budget.2.2.2.2.1⟩

/-- C10: a 302 response with no `Location` header, or with a `Location`
value that is not visible ASCII, makes the per-dependency download panic
(the header lookup and the header-to-string conversion are unwrapped)
instead of returning a download error. -/
theorem c10_unwrap_panic :
    (∀ (net : String → Except String Response) (n : Nat) (url : String)
        (resp : Response), net url = .ok resp → resp.status = 302 →
        resp.location = none → tryDownload net (n + 1) url = .panicked)
    ∧ (∀ (net : String → Except String Response) (n : Nat) (url : String)
        (resp : Response), net url = .ok resp → resp.status = 302 →
        resp.location = some .invalid → tryDownload net (n + 1) url = .panicked)
    ∧ (∀ (d : Dependency) (net : String → Except String Response) (resp : Response),
        net d.url = .ok resp → resp.status = 302 → resp.location = none →
        d.download net = .panicked)
    ∧ (∀ (d : Dependency) (net : String → Except String Response) (resp : Response),
        net d.url = .ok resp → resp.status = 302 → resp.location = some .invalid →
        d.download net = .panicked) := by
  have h302 : ∀ (net : String → Except String Response) (n : Nat) (url : String)
      (resp : Response) (loc : Option HeaderVal), net url = .ok resp →
      resp.status = 302 → resp.location = loc →
      (loc = none ∨ loc = some .invalid) → tryDownload net (n + 1) url = .panicked := by
    intro net n url resp loc h1 h2 h3 h4
    rcases h4 with h4 | h4 <;> subst h4 <;> simp [tryDownload, h1, h2, h3]
  exact ⟨fun net n url resp h1 h2 h3 => h302 net n url resp none h1 h2 h3 (Or.inl rfl),
         fun net n url resp h1 h2 h3 => h302 net n url resp _ h1 h2 h3 (Or.inr rfl),
         fun d net resp h1 h2 h3 => h302 net 4 d.url resp none h1 h2 h3 (Or.inl rfl),
         fun d net resp h1 h2 h3 => h302 net 4 d.url resp _ h1 h2 h3 (Or.inr rfl)⟩

theorem c10_unwrap_panic_witness :
    depT.download netNoLocation = .panicked
    ∧ depT.download netBadLocation = .panicked :=
  ⟨c10_unwrap_panic.2.2.1 depT netNoLocation
      { status := 302, location := none, body := .ok [] } rfl rfl rfl,
   c10_unwrap_panic.2.2.2 depT netBadLocation
      { status := 302, location := some .invalid, body := .ok [] } rfl rfl rfl⟩

/-- C2 as stated is false on the code: the batch failure value does not
name the failed dependency.  The `DownloadError` carries only the rendered
cause, so renaming the failing dependency `B` to `C` leaves the returned
error value unchanged; the full run still leaves the filesystem untouched. -/
theorem c2_counterexample :
    download_dependencies netOnlyAOk [Dependency.new "A" "1.0", Dependency.new "B" "1.0"]
        = .err (.DownloadError "Non-successful response: 500 Internal Server Error")
    ∧ download_dependencies netOnlyAOk [Dependency.new "A" "1.0", Dependency.new "C" "1.0"]
        = download_dependencies netOnlyAOk [Dependency.new "A" "1.0", Dependency.new "B" "1.0"]
    ∧ Install.perform (some [0]) (parseTo (manifestOf [("A", "1.0"), ("B", "1.0")]))
        netOnlyAOk zipParse3 (fun _ => false) emptyFS
        = (.err (.DownloadError "Non-successful response: 500 Internal Server Error"),
           emptyFS) :=
  ⟨rfl, rfl, rfl⟩

/-- C2 (amended): when at least one download fails with an error (and none
panics), the batch returns a `DownloadError` — carrying the cause but not
the failed dependency's name — and `Install::perform` propagates it before
any directory is created or any file is written: the filesystem is
returned unchanged. -/
theorem c2_batch_failure :
    (∀ (net : String → Except String Response) (deps : List Dependency),
        (∃ d ∈ deps, ∃ e, d.download net = .err e) →
        (∀ d ∈ deps, d.download net ≠ .panicked) →
        ∃ c, download_dependencies net deps = .err (.DownloadError c))
    ∧ (∀ (bytes : List Nat) (parse : List Nat → Option Manifest)
          (net : String → Except String Response)
          (zipParse : List Nat → Except String (List ZipEntry))
          (writeFails : List String → Bool) (fs : FS)
          (manifest : Manifest) (deps : List Dependency) (e : Error),
        parse bytes = some manifest → get_deps manifest = .ok deps →
        download_dependencies net deps = .err e →
        Install.perform (some bytes) parse net zipParse writeFails fs = (.err e, fs)) := by
  constructor
  · intro net deps
    induction deps with
    | nil =>
      rintro ⟨d, hd, _⟩ _
      simp at hd
    | cons d rest ih =>
      rintro ⟨d0, hd0, e0, he0⟩ hnp
      cases hdl : d.download net with
      | panicked => exact absurd hdl (hnp d (List.mem_cons_self d rest))
      | err e1 =>
        obtain ⟨c, hc⟩ := tryDownload_err_shape net 5 d.url e1 hdl
        refine ⟨c, ?_⟩
        simp only [download_dependencies, hdl, hc]
      | ok bytes =>
        have hd0rest : d0 ∈ rest := by
          rcases List.mem_cons.mp hd0 with h | h
          · subst h
            rw [hdl] at he0
            simp at he0
          · exact h
        obtain ⟨c, hc⟩ :=
          ih ⟨d0, hd0rest, e0, he0⟩ (fun d1 hd1 => hnp d1 (List.mem_cons_of_mem _ hd1))
        refine ⟨c, ?_⟩
        simp only [download_dependencies, hdl, hc]
  · intro bytes parse net zipParse writeFails fs manifest deps e h1 h2 h3
    simp only [Install.perform, h1, h2, h3]

theorem c2_batch_failure_witness :
    (∃ c, download_dependencies netOnlyAOk
        [Dependency.new "A" "1.0", Dependency.new "B" "1.0"] = .err (.DownloadError c))
    ∧ Install.perform (some [0]) (parseTo (manifestOf [("A", "1.0"), ("B", "1.0")]))
        netOnlyAOk zipParse3 (fun _ => false) emptyFS
        = (.err (.DownloadError "Non-successful response: 500 Internal Server Error"),
           emptyFS) :=
  ⟨c2_batch_failure.1 netOnlyAOk [Dependency.new "A" "1.0", Dependency.new "B" "1.0"]
      ⟨Dependency.new "B" "1.0", by decide,
       .DownloadError "Non-successful response: 500 Internal Server Error", by decide⟩
      (by decide),
   c2_batch_failure.2 [0] (parseTo (manifestOf [("A", "1.0"), ("B", "1.0")]))
      netOnlyAOk zipParse3 (fun _ => false) emptyFS
      (manifestOf [("A", "1.0"), ("B", "1.0")])
      [Dependency.new "A" "1.0", Dependency.new "B" "1.0"]
      (.DownloadError "Non-successful response: 500 Internal Server Error")
      rfl rfl rfl⟩

/-- Shared: a dependency table entry whose value is not a string makes the
collected result the `MalformedManifest` error, with no partial list. -/
theorem depsFromTable_err_of_nonstr :
    ∀ (deps : List (String × TomlValue)) (k : String) (v : TomlValue),
      (k, v) ∈ deps → (∀ s, v ≠ .str s) →
      depsFromTable deps = .error .MalformedManifest := by
  intro deps
  induction deps with
  | nil =>
    intro k v h _
    simp at h
  | cons kv rest ih =>
    intro k v hmem hv
    rcases List.mem_cons.mp hmem with h | h
    · obtain ⟨k0, v0⟩ := kv
      injection h.symm with hk hv0
      subst hv0
      cases v0 with
      | str s => exact absurd rfl (hv s)
      | table t => rfl
      | other => rfl
    · obtain ⟨k0, v0⟩ := kv
      cases v0 with
      | str s => simp only [depsFromTable, ih k v h hv]
      | table t => rfl
      | other => rfl

/-- C5: the Dependency Extractor fails with `MalformedManifest` — and
returns no records at all — whenever the package metadata is absent or not
a table, the `nuget_dependencies` table is absent or not a table, or any
dependency entry's value is not a string. -/
theorem c5_malformed :
    (∀ m : Manifest, m.package.bind Package.metadata = none →
        get_deps m = .error .MalformedManifest)
    ∧ (∀ (m : Manifest) (v : TomlValue), m.package.bind Package.metadata = some v →
        (∀ t, v ≠ .table t) → get_deps m = .error .MalformedManifest)
    ∧ (∀ (m : Manifest) (t : List (String × TomlValue)),
        m.package.bind Package.metadata = some (.table t) →
        tableLookup "nuget_dependencies" t = none →
        get_deps m = .error .MalformedManifest)
    ∧ (∀ (m : Manifest) (t : List (String × TomlValue)) (v : TomlValue),
        m.package.bind Package.metadata = some (.table t) →
        tableLookup "nuget_dependencies" t = some v → (∀ dt, v ≠ .table dt) →
        get_deps m = .error .MalformedManifest)
    ∧ (∀ (deps : List (String × TomlValue)) (k : String) (v : TomlValue),
        (k, v) ∈ deps → (∀ s, v ≠ .str s) →
        depsFromTable deps = .error .MalformedManifest)
    ∧ (∀ (m : Manifest) (t dt : List (String × TomlValue)) (k : String) (v : TomlValue),
        m.package.bind Package.metadata = some (.table t) →
        tableLookup "nuget_dependencies" t = some (.table dt) → (k, v) ∈ dt →
        (∀ s, v ≠ .str s) → get_deps m = .error .MalformedManifest) := by
  refine ⟨?_, ?_, ?_, ?_, depsFromTable_err_of_nonstr, ?_⟩
  · intro m h
    simp [get_deps, h]
  · intro m v h hv
    cases v with
    | str s => simp [get_deps, h]
    | table t => exact absurd rfl (hv t)
    | other => simp [get_deps, h]
  · intro m t h hl
    simp [get_deps, h, hl]
  · intro m t v h hl hv
    cases v with
    | str s => simp [get_deps, h, hl]
    | table dt => exact absurd rfl (hv dt)
    | other => simp [get_deps, h, hl]
  · intro m t dt k v h hl hmem hv
    simp [get_deps, h, hl, depsFromTable_err_of_nonstr dt k v hmem hv]

theorem c5_malformed_witness :
    get_deps { package := none } = .error .MalformedManifest
    ∧ get_deps { package := some { metadata := some (.str "x") } }
        = .error .MalformedManifest
    ∧ get_deps { package := some { metadata := some (.table []) } }
        = .error .MalformedManifest
    ∧ get_deps { package := some { metadata := some (.table [("nuget_dependencies", .str "v")]) } }
        = .error .MalformedManifest
    ∧ depsFromTable [("k", TomlValue.other)] = .error .MalformedManifest
    ∧ get_deps { package := some { metadata := some (.table [("nuget_dependencies", .table [("k", TomlValue.other)])]) } }
        = .error .MalformedManifest :=
  ⟨c5_malformed.1 _ rfl,
   c5_malformed.2.1 _ (.str "x") rfl (fun t h => TomlValue.noConfusion h),
   c5_malformed.2.2.1 _ [] rfl rfl,
   c5_malformed.2.2.2.1 _ [("nuget_dependencies", .str "v")] (.str "v") rfl rfl
     (fun dt h => TomlValue.noConfusion h),
   c5_malformed.2.2.2.2.1 [("k", TomlValue.other)] "k" TomlValue.other (by simp)
     (fun s h => TomlValue.noConfusion h),
   c5_malformed.2.2.2.2.2 _ [("nuget_dependencies", .table [("k", TomlValue.other)])]
     [("k", TomlValue.other)] "k" TomlValue.other rfl rfl (by simp)
     (fun s h => TomlValue.noConfusion h)⟩

/-- Shared: on a table whose values are all strings, the collected result
is one dependency per entry, in order. -/
theorem depsFromTable_map (ds : List (String × String)) :
    depsFromTable (ds.map (fun p => (p.1, TomlValue.str p.2)))
      = .ok (ds.map (fun p => Dependency.new p.1 p.2)) := by
  induction ds with
  | nil => rfl
  | cons p rest ih => simp only [List.map, depsFromTable, ih]

/-- C7: on a dependency table where every value is a string, the Extractor
succeeds with exactly one record per entry, name and version matching that
entry, and entry order only permutes the output. -/
theorem c7_success :
    (∀ ds : List (String × String),
        get_deps (manifestOf ds) = .ok (ds.map (fun p => Dependency.new p.1 p.2)))
    ∧ (∀ ds : List (String × String),
        depsFromTable (ds.map (fun p => (p.1, TomlValue.str p.2)))
          = .ok (ds.map (fun p => Dependency.new p.1 p.2)))
    ∧ (∀ ds1 ds2 : List (String × String), ds1.Perm ds2 →
        (ds1.map (fun p => Dependency.new p.1 p.2)).Perm
          (ds2.map (fun p => Dependency.new p.1 p.2))) := by
  refine ⟨?_, depsFromTable_map, fun ds1 ds2 h => h.map _⟩
  intro ds
  simp [get_deps, manifestOf, tableLookup, depsFromTable_map ds]

/-- Shared: a selected entry always has a final path component. -/
theorem exists_getLast?_of_selected (cs : List String) (h : entrySelected cs = true) :
    ∃ name, cs.getLast? = some name := by
  cases hl : cs.getLast? with
  | some name => exact ⟨name, rfl⟩
  | none =>
    have hx : pathExtension cs = none := by simp [pathExtension, hl]
    simp only [entrySelected, hx] at h
    exact Bool.noConfusion h

/-- C6: a selected archive entry whose content read fails is skipped with a
logged warning, and the per-dependency extraction still returns `Ok` with
the remaining entries processed; only a failure to open the archive
container itself is the hard error `Error::Other`. -/
theorem c6_entry_skip :
    (∀ (d : DownloadedDependency) (zipParse : List Nat → Except String (List ZipEntry))
        (msg : String), zipParse d.bytes = .error msg →
        d.winmds zipParse = .error (.Other msg))
    ∧ (∀ (d : DownloadedDependency) (zipParse : List Nat → Except String (List ZipEntry))
        (entries : List ZipEntry), zipParse d.bytes = .ok entries →
        d.winmds zipParse = .ok (collectWinmds entries))
    ∧ (∀ (e : ZipEntry) (rest : List ZipEntry) (msg : String), e.content = .error msg →
        collectWinmds (e :: rest) = collectWinmds rest)
    ∧ (∀ (e : ZipEntry) (rest : List ZipEntry) (msg : String), e.content = .error msg →
        entrySelected e.components = true →
        winmdWarnings (e :: rest)
          = ("Could not read winmd file: " ++ msg) :: winmdWarnings rest) := by
  refine ⟨?_, ?_, ?_, ?_⟩
  · intro d zipParse msg h
    simp only [DownloadedDependency.winmds, h]
  · intro d zipParse entries h
    simp only [DownloadedDependency.winmds, h]
  · intro e rest msg h
    cases hl : e.components.getLast? with
    | none => simp only [collectWinmds, hl]
    | some name =>
      by_cases hs : entrySelected e.components = true
      · simp [collectWinmds, hl, hs, h]
      · simp [collectWinmds, hl, hs]
  · intro e rest msg h hs
    obtain ⟨name, hl⟩ := exists_getLast?_of_selected e.components hs
    simp only [winmdWarnings, hl, hs, if_true, h]

theorem c6_entry_skip_witness :
    DownloadedDependency.winmds { dependency := depT, bytes := [] }
        (fun _ => .error "bad zip") = .error (.Other "bad zip")
    ∧ DownloadedDependency.winmds { dependency := depT, bytes := [] } zipParse3
        = .ok (collectWinmds archive3)
    ∧ collectWinmds (badEntry :: archive3) = collectWinmds archive3
    ∧ winmdWarnings [badEntry]
        = ("Could not read winmd file: " ++ "eof") :: winmdWarnings [] :=
  ⟨c6_entry_skip.1 { dependency := depT, bytes := [] } (fun _ => .error "bad zip")
      "bad zip" rfl,
   c6_entry_skip.2.1 { dependency := depT, bytes := [] } zipParse3 archive3 rfl,
   c6_entry_skip.2.2.1 badEntry archive3 "eof" rfl,
   c6_entry_skip.2.2.2 badEntry [] "eof" rfl (by decide)⟩

/-! ### Filesystem lemmas for the materializer -/

theorem readFile_writeFile (fs : FS) (p q : List String) (c : List Nat) :
    (fs.writeFile p c).readFile q = if q = p then some c else fs.readFile q := by
  by_cases h : q = p
  · subst h
    simp [FS.writeFile, FS.readFile, List.find?]
  · have hd : decide (p = q) = false := decide_eq_false (fun hh => h hh.symm)
    simp [FS.writeFile, FS.readFile, List.find?, hd, h]

theorem writeAll_dirs (dir : List String) :
    ∀ (ws : List Winmd) (fs : FS), (writeAll dir ws fs).dirs = fs.dirs := by
  intro ws
  induction ws with
  | nil => intro fs; rfl
  | cons w rest ih =>
    intro fs
    simp only [writeAll, ih]
    rfl

theorem readFile_writeAll (dir : List String) :
    ∀ (ws : List Winmd) (fs : FS) (p : List String),
      (writeAll dir ws fs).readFile p
        = match lastWrite dir ws p with
          | some c => some c
          | none => fs.readFile p := by
  intro ws
  induction ws with
  | nil => intro fs p; rfl
  | cons w rest ih =>
    intro fs p
    simp only [writeAll, lastWrite, ih]
    cases h : lastWrite dir rest p with
    | some c => rfl
    | none =>
      rw [readFile_writeFile]
      by_cases hp : p = dir ++ [w.name]
      · rw [if_pos hp, if_pos hp.symm]
      · rw [if_neg hp, if_neg (fun hh => hp hh.symm)]

theorem mem_foldl_insertDir_of_mem {x : List String} :
    ∀ (l ds : List (List String)), x ∈ ds → x ∈ l.foldl insertDir ds := by
  intro l
  induction l with
  | nil => intro ds h; exact h
  | cons y rest ih =>
    intro ds h
    simp only [List.foldl_cons]
    apply ih
    unfold insertDir
    split
    · exact h
    · exact List.mem_cons_of_mem _ h

theorem mem_foldl_insertDir_self {x : List String} :
    ∀ (l ds : List (List String)), x ∈ l → x ∈ l.foldl insertDir ds := by
  intro l
  induction l with
  | nil => intro ds h; simp at h
  | cons y rest ih =>
    intro ds h
    simp only [List.foldl_cons]
    rcases List.mem_cons.mp h with h | h
    · subst h
      apply mem_foldl_insertDir_of_mem
      unfold insertDir
      split
      · assumption
      · exact List.mem_cons_self _ _
    · exact ih _ h

theorem foldl_insertDir_eq_of_subset :
    ∀ (l ds : List (List String)), (∀ x ∈ l, x ∈ ds) → l.foldl insertDir ds = ds := by
  intro l
  induction l with
  | nil => intro ds _; rfl
  | cons y rest ih =>
    intro ds h
    have hy : insertDir ds y = ds := by
      unfold insertDir
      rw [if_pos (h y (List.mem_cons_self y rest))]
    simp only [List.foldl_cons, hy]
    exact ih ds (fun x hx => h x (List.mem_cons_of_mem _ hx))

theorem readFile_mkdirAll (fs : FS) (d p : List String) :
    (fs.mkdirAll d).readFile p = fs.readFile p := rfl

/-- C8: materialization is idempotent.  The write loop with no io errors
is the plain filesystem fold; `create_dir_all` succeeds and is a no-op on
an existing directory (and creates the directory with its parents); a
write overwrites a pre-existing file of the same name; re-running the
materialize step for a dependency leaves every file content and the
directory set unchanged; and each file lands under its bare name inside
the dependency directory. -/
theorem c8_idempotent :
    (∀ (dir : List String) (ws : List Winmd) (fs : FS),
        writeAllWinmds (fun _ => false) dir ws fs = (.ok (), writeAll dir ws fs))
    ∧ (∀ (fs : FS) (d : List String), (fs.mkdirAll d).mkdirAll d = fs.mkdirAll d)
    ∧ (∀ (fs : FS) (name : String),
        depDir name ∈ (fs.mkdirAll (depDir name)).dirs
        ∧ ["target", "nuget"] ∈ (fs.mkdirAll (depDir name)).dirs
        ∧ ["target"] ∈ (fs.mkdirAll (depDir name)).dirs)
    ∧ (∀ (fs : FS) (p : List String) (c : List Nat),
        (fs.writeFile p c).readFile p = some c)
    ∧ (∀ (name : String) (ws : List Winmd) (fs : FS) (p : List String),
        (materializeDep name ws (materializeDep name ws fs)).readFile p
          = (materializeDep name ws fs).readFile p)
    ∧ (∀ (name : String) (ws : List Winmd) (fs : FS),
        (materializeDep name ws (materializeDep name ws fs)).dirs
          = (materializeDep name ws fs).dirs)
    ∧ (∀ (name : String) (ws : List Winmd) (w : Winmd) (fs : FS),
        (materializeDep name (ws ++ [w]) fs).readFile (depDir name ++ [w.name])
          = some w.contents) := by
  have hlast : ∀ (dir : List String) (ws : List Winmd) (w : Winmd),
      lastWrite dir (ws ++ [w]) (dir ++ [w.name]) = some w.contents := by
    intro dir ws w
    induction ws with
    | nil => simp [lastWrite]
    | cons x rest ih => simp [lastWrite, ih]
  refine ⟨?_, ?_, ?_, ?_, ?_, ?_, ?_⟩
  · intro dir ws
    induction ws with
    | nil => intro fs; rfl
    | cons w rest ih =>
      intro fs
      simp only [writeAllWinmds, Winmd.write, if_false, writeAll]
      exact ih _
  · intro fs d
    have h : (dirPrefixes d).foldl insertDir ((dirPrefixes d).foldl insertDir fs.dirs)
        = (dirPrefixes d).foldl insertDir fs.dirs :=
      foldl_insertDir_eq_of_subset _ _ (fun x hx => mem_foldl_insertDir_self _ _ hx)
    simp only [FS.mkdirAll]
    rw [h]
  · intro fs name
    have hpre : dirPrefixes (depDir name) = [["target"], ["target", "nuget"], depDir name] :=
      rfl
    refine ⟨?_, ?_, ?_⟩ <;>
      · apply mem_foldl_insertDir_self
        rw [hpre]
        simp [depDir]
  · intro fs p c
    rw [readFile_writeFile, if_pos rfl]
  · intro name ws fs p
    unfold materializeDep
    rw [readFile_writeAll, readFile_writeAll]
    cases h : lastWrite (depDir name) ws p with
    | some c => rfl
    | none =>
      rw [readFile_mkdirAll, readFile_mkdirAll, readFile_writeAll, h]
      rfl
  · intro name ws fs
    unfold materializeDep
    rw [writeAll_dirs, writeAll_dirs]
    simp only [FS.mkdirAll]
    rw [writeAll_dirs]
    exact foldl_insertDir_eq_of_subset _ _ (fun x hx => mem_foldl_insertDir_self _ _ hx)
  · intro name ws w fs
    unfold materializeDep
    rw [readFile_writeAll, hlast]

/-! ### Path rendering lemmas for the selection rule -/

theorem list_append_sep_inj {α : Type} (sep : α) :
    ∀ (l1 l2 r1 r2 : List α), sep ∉ l1 → sep ∉ l2 →
      l1 ++ sep :: r1 = l2 ++ sep :: r2 → l1 = l2 ∧ r1 = r2 := by
  intro l1
  induction l1 with
  | nil =>
    intro l2 r1 r2 h1 h2 h
    cases l2 with
    | nil =>
      simp only [List.nil_append] at h
      injection h with _ h3
      exact ⟨rfl, h3⟩
    | cons b bs =>
      simp only [List.nil_append, List.cons_append] at h
      injection h with hb _
      subst hb
      exact absurd (List.mem_cons_self _ _) h2
  | cons a as ih =>
    intro l2 r1 r2 h1 h2 h
    cases l2 with
    | nil =>
      simp only [List.cons_append, List.nil_append] at h
      injection h with ha _
      rw [ha] at h1
      exact absurd (List.mem_cons_self _ _) h1
    | cons b bs =>
      simp only [List.cons_append] at h
      injection h with hab htail
      have h1' : sep ∉ as := fun hx => h1 (List.mem_cons_of_mem _ hx)
      have h2' : sep ∉ bs := fun hx => h2 (List.mem_cons_of_mem _ hx)
      obtain ⟨he, hr⟩ := ih bs r1 r2 h1' h2' htail
      exact ⟨by rw [hab, he], hr⟩

theorem sep_mem_renderPath (c d : String) (rest : List String) :
    '\\' ∈ (renderPath (c :: d :: rest)).data := by
  rw [show renderPath (c :: d :: rest) = c ++ "\\" ++ renderPath (d :: rest) from rfl]
  rw [String.data_append, String.data_append]
  exact List.mem_append.mpr
    (Or.inl (List.mem_append.mpr (Or.inr (by decide))))

theorem renderPath_eq_target :
    ∀ (cs : List String), (∀ c ∈ cs, c ≠ "" ∧ '\\' ∉ c.data) →
      (renderPath cs = "lib\\uap10.0" ↔ cs = ["lib", "uap10.0"]) := by
  intro cs h
  constructor
  · intro heq
    cases cs with
    | nil => exact absurd heq (by decide)
    | cons c rest =>
      cases rest with
      | nil =>
        have hc : '\\' ∉ c.data := (h c (List.mem_cons_self c [])).2
        rw [show renderPath [c] = c from rfl] at heq
        rw [heq] at hc
        exact absurd (by decide : '\\' ∈ "lib\\uap10.0".data) hc
      | cons d rest2 =>
        have hdata : c.data ++ '\\' :: (renderPath (d :: rest2)).data
            = "lib".data ++ '\\' :: "uap10.0".data := by
          have h0 := congrArg String.data heq
          rw [show renderPath (c :: d :: rest2)
              = c ++ "\\" ++ renderPath (d :: rest2) from rfl] at h0
          rw [String.data_append, String.data_append] at h0
          rw [show ("\\" : String).data = ['\\'] from by decide] at h0
          rw [List.append_assoc, List.singleton_append] at h0
          exact h0.trans (by decide)
        obtain ⟨hc, hrest⟩ := list_append_sep_inj '\\' c.data "lib".data _ _
          (h c (List.mem_cons_self _ _)).2 (by decide) hdata
        have hceq : c = "lib" := String.ext hc
        cases rest2 with
        | nil =>
          have hdeq : d = "uap10.0" := String.ext hrest
          rw [hceq, hdeq]
        | cons e rest3 =>
          have hmem := sep_mem_renderPath d e rest3
          rw [hrest] at hmem
          exact absurd hmem (by decide)
  · rintro rfl
    rfl

/-- C3: an archive entry is selected if and only if its file extension is
`winmd` and its containing directory path is `lib/uap10.0` (components
`["lib", "uap10.0"]`, rendered with the normalized separator); on the
spec's three-entry example the extraction yields exactly one file,
`foo.winmd`, with that entry's decompressed contents. -/
theorem c3_selection :
    (∀ cs : List String, (∀ c ∈ cs, c ≠ "" ∧ '\\' ∉ c.data) →
        (entrySelected cs = true ↔
          pathExtension cs = some "winmd" ∧ cs.dropLast = ["lib", "uap10.0"]))
    ∧ (∀ d : DownloadedDependency,
        d.winmds zipParse3 = .ok [{ name := "foo.winmd", contents := [1, 2, 3] }]) := by
  constructor
  · intro cs h
    cases hx : pathExtension cs with
    | none =>
      simp [entrySelected, hx]
    | some e =>
      have hne : cs ≠ [] := by
        intro hnil
        rw [hnil] at hx
        simp [pathExtension] at hx
      have hemp : cs.isEmpty = false := by
        cases cs with
        | nil => exact absurd rfl hne
        | cons a b => rfl
      simp only [entrySelected, hx, Bool.and_eq_true, decide_eq_true_eq]
      constructor
      · rintro ⟨he, hp⟩
        subst he
        refine ⟨rfl, ?_⟩
        simp only [pathParentStr, hemp, Bool.false_eq_true, if_false,
          Option.some.injEq] at hp
        have hsub : ∀ c ∈ cs.dropLast, c ≠ "" ∧ '\\' ∉ c.data :=
          fun c hc => h c (List.mem_of_mem_dropLast hc)
        exact (renderPath_eq_target cs.dropLast hsub).mp hp
      · rintro ⟨he, hd⟩
        injection he with he
        refine ⟨he, ?_⟩
        simp only [pathParentStr, hemp, Bool.false_eq_true, if_false, hd]
        rfl
  · intro d
    rfl

theorem c3_selection_witness :
    entrySelected ["lib", "uap10.0", "foo.winmd"] = true
    ∧ DownloadedDependency.winmds { dependency := depT, bytes := [] } zipParse3
        = .ok [{ name := "foo.winmd", contents := [1, 2, 3] }] :=
  ⟨(c3_selection.1 ["lib", "uap10.0", "foo.winmd"] (by decide)).mpr (by decide),
   c3_selection.2 { dependency := depT, bytes := [] }⟩

/-- C4 as stated is false on the code: a filesystem write error during
materialization is not surfaced as an error value (there is no
`WriteFailure` variant in `enum Error`); the unwrap on `winmd.write`
panics.  In the concrete run below, the write of `bar.winmd` fails and the
whole install panics, with the previously written `foo.winmd` left on
disk. -/
theorem c4_counterexample :
    Install.perform (some [0]) (parseTo (manifestOf [("P", "1.0")])) netP zipParseP wfP
        emptyFS
      = (.panicked,
         { dirs := [["target", "nuget", "P"], ["target", "nuget"], ["target"]],
           files := [(["target", "nuget", "P", "foo.winmd"], [1])] })
    ∧ (FS.mk [["target", "nuget", "P"], ["target", "nuget"], ["target"]]
          [(["target", "nuget", "P", "foo.winmd"], [1])]).readFile
        ["target", "nuget", "P", "foo.winmd"] = some [1] :=
  ⟨rfl, rfl⟩

/-- C4 (amended): a filesystem write error during materialization makes the
install panic on the unwrap instead of returning a terminal error value;
the panic aborts that dependency's remaining writes (and everything after),
and files already written before the failure are left in place, not rolled
back. -/
theorem c4_write_panic :
    (∀ (writeFails : List String → Bool) (dir : List String) (pre : List Winmd)
        (w : Winmd) (post : List Winmd) (fs : FS),
      (∀ x ∈ pre, writeFails (dir ++ [x.name]) = false) →
      writeFails (dir ++ [w.name]) = true →
      writeAllWinmds writeFails dir (pre ++ w :: post) fs
        = (.panicked, writeAll dir pre fs))
    ∧ (∀ (zipParse : List Nat → Except String (List ZipEntry))
        (writeFails : List String → Bool) (d : DownloadedDependency)
        (rest : List DownloadedDependency) (fs : FS) (ws : List Winmd) (fs2 : FS),
      d.winmds zipParse = .ok ws →
      writeAllWinmds writeFails (depDir d.dependency.name) ws
          (fs.mkdirAll (depDir d.dependency.name)) = (.panicked, fs2) →
      installDownloaded zipParse writeFails (d :: rest) fs = (.panicked, fs2)) := by
  constructor
  · intro writeFails dir pre
    induction pre with
    | nil =>
      intro w post fs h1 h2
      simp only [List.nil_append, writeAllWinmds, Winmd.write, h2, if_true, writeAll]
    | cons x pre ih =>
      intro w post fs h1 h2
      have hx : writeFails (dir ++ [x.name]) = false := h1 x (List.mem_cons_self _ _)
      simp only [List.cons_append, writeAllWinmds, Winmd.write, hx, Bool.false_eq_true,
        if_false, writeAll]
      exact ih w post _ (fun y hy => h1 y (List.mem_cons_of_mem _ hy)) h2
  · intro zipParse writeFails d rest fs ws fs2 h1 h2
    simp only [installDownloaded, h1, h2]

theorem c4_write_panic_witness :
    writeAllWinmds wfP (depDir "P")
        ([{ name := "foo.winmd", contents := [1] }]
          ++ { name := "bar.winmd", contents := [2] } :: []) emptyFS
      = (.panicked, writeAll (depDir "P") [{ name := "foo.winmd", contents := [1] }] emptyFS)
    ∧ installDownloaded zipParseP wfP
        [{ dependency := Dependency.new "P" "1.0", bytes := [9] }] emptyFS
      = (.panicked,
         { dirs := [["target", "nuget", "P"], ["target", "nuget"], ["target"]],
           files := [(["target", "nuget", "P", "foo.winmd"], [1])] }) :=
  ⟨c4_write_panic.1 wfP (depDir "P") [{ name := "foo.winmd", contents := [1] }]
      { name := "bar.winmd", contents := [2] } [] emptyFS (by decide) (by decide),
   c4_write_panic.2 zipParseP wfP { dependency := Dependency.new "P" "1.0", bytes := [9] }
      [] emptyFS
      [{ name := "foo.winmd", contents := [1] }, { name := "bar.winmd", contents := [2] }]
      { dirs := [["target", "nuget", "P"], ["target", "nuget"], ["target"]],
        files := [(["target", "nuget", "P", "foo.winmd"], [1])] }
      rfl rfl⟩

theorem c7_success_witness :
    get_deps (manifestOf [("a", "1"), ("b", "2")])
      = .ok [Dependency.new "a" "1", Dependency.new "b" "2"]
    ∧ ([("a", "1"), ("b", "2")].map
          (fun p : String × String => Dependency.new p.1 p.2)).Perm
        ([("b", "2"), ("a", "1")].map
          (fun p : String × String => Dependency.new p.1 p.2)) :=
  ⟨c7_success.1 [("a", "1"), ("b", "2")],
   c7_success.2.2 [("a", "1"), ("b", "2")] [("b", "2"), ("a", "1")] (by decide)⟩

end CargoNuget
